import Mathlib

/-!
Shallow embedding of the condition-evaluation engine of
`src/activityFeedFilter.user.js` (class `ActivityHandler`), together with
theorems checking the specification's description of that engine.

An activity entry is abstracted by the boolean attributes and the text that
the engine's predicates consult on the DOM node; every other definition is a
direct translation of the corresponding function of the source file.
-/

namespace AFF

/-- The condition names registered in `CONDITIONS_MAP` (source lines 93-100),
listed in the map's insertion order. -/
inductive Cond where
  | uncommented
  | unliked
  | text
  | images
  | videos
  | containsStrings
deriving DecidableEq, Repr, Fintype

/-- One element of `config.remove.containsStrings`: either a single string
(an OR-candidate) or an array of strings (an AND-group, source line 165). -/
inductive TermGroup where
  | single (s : String)
  | group (ss : List String)
deriving DecidableEq, Repr

/-- `Array.prototype.flat()` restricted to one `containsStrings` element. -/
def TermGroup.flat : TermGroup → List String
  | .single s => [s]
  | .group ss => ss

/-- One element of `config.options.linkedConditions`: either a bare condition
name or an array of condition names (source lines 120-123). -/
inductive LinkedItem where
  | name (c : Cond)
  | group (cs : List Cond)
deriving DecidableEq, Repr

/-- `typeof i === 'string'` on a `linkedConditions` element (source line 120). -/
def LinkedItem.isName : LinkedItem → Bool
  | .name _ => true
  | .group _ => false

/-- `Array.isArray(i)` on a `linkedConditions` element (source line 121). -/
def LinkedItem.isArr : LinkedItem → Bool
  | .name _ => false
  | .group _ => true

/-- `Array.prototype.flat()` restricted to one `linkedConditions` element
(source line 109). -/
def LinkedItem.flatten : LinkedItem → List Cond
  | .name c => [c]
  | .group cs => cs

/-- `Array.isArray(i) ? i : [i]` (source line 123). -/
def LinkedItem.toGroup : LinkedItem → List Cond
  | .name c => [c]
  | .group cs => cs

/-- The attributes of one activity entry that the engine's predicates read
off the DOM node: reply count present, like count present, an `img` element,
a `video`/`youtube` element, the text/message activity classes, and the
node's text content. -/
structure Entry where
  hasComments : Bool
  hasLikes : Bool
  hasImage : Bool
  hasVideo : Bool
  isTextOnly : Bool
  text : String
deriving DecidableEq, Repr

/-- The `remove` section of the configuration (source lines 13-20). -/
structure RemoveConfig where
  images : Bool
  videos : Bool
  text : Bool
  uncommented : Bool
  unliked : Bool
  containsStrings : List TermGroup
deriving DecidableEq, Repr

/-- The `options` section of the configuration (source lines 21-26);
`targetLoadCount` is consumed only by the pagination collaborator and is
irrelevant to the decision procedure. -/
structure Options where
  caseSensitive : Bool
  reverseConditions : Bool
  linkedConditions : List LinkedItem
deriving DecidableEq, Repr

/-- The parts of the validated configuration the engine reads. -/
structure Config where
  remove : RemoveConfig
  options : Options
deriving DecidableEq, Repr

/-- `shouldRemoveUncommented` (source line 183): no reply count present. -/
def shouldRemoveUncommented (e : Entry) : Bool := !e.hasComments

/-- `shouldRemoveUnliked` (source line 185): no like count present. -/
def shouldRemoveUnliked (e : Entry) : Bool := !e.hasLikes

/-- `shouldRemoveImage` (source line 181): the node contains an image. -/
def shouldRemoveImage (e : Entry) : Bool := e.hasImage

/-- `shouldRemoveVideo` (source lines 178-179): the node contains a video. -/
def shouldRemoveVideo (e : Entry) : Bool := e.hasVideo

/-- `shouldRemoveText` (source lines 174-176): a text/message activity with
neither image nor video. -/
def shouldRemoveText (e : Entry) : Bool :=
  e.isTextOnly && !(shouldRemoveImage e || shouldRemoveVideo e)

/-- `containsString` (source lines 161-163): substring containment, both
sides lower-cased first unless `caseSensitive`. -/
def containsString (caseSensitive : Bool) (nodeText strings : String) : Bool :=
  if !caseSensitive then
    decide ((strings.data.map Char.toLower) <:+: (nodeText.data.map Char.toLower))
  else
    decide (strings.data <:+: nodeText.data)

/-- `checkStrings` (source lines 165-167): an array of strings requires every
string to be contained, a single string requires that string. -/
def checkStrings (caseSensitive : Bool) (nodeText : String) : TermGroup → Bool
  | .group strs => strs.all (fun str => containsString caseSensitive nodeText str)
  | .single s => containsString caseSensitive nodeText s

/-- `shouldRemoveStrings` (source lines 154-172). -/
def shouldRemoveStrings (cfg : Config) (e : Entry) (reversed : Bool) : Bool :=
  let containsStrings := cfg.remove.containsStrings
  if (containsStrings.flatMap TermGroup.flat).length == 0 then false
  else if reversed then !(containsStrings.any (checkStrings cfg.options.caseSensitive e.text))
  else containsStrings.any (checkStrings cfg.options.caseSensitive e.text)

/-- The predicate `CONDITIONS_MAP` associates to each condition name
(source lines 93-100), applied as `predicate(node, reverse)`. -/
def condPred (cfg : Config) (e : Entry) (reverse : Bool) : Cond → Bool
  | .uncommented => if reverse then !(shouldRemoveUncommented e) else shouldRemoveUncommented e
  | .unliked => if reverse then !(shouldRemoveUnliked e) else shouldRemoveUnliked e
  | .text => if reverse then !(shouldRemoveText e) else shouldRemoveText e
  | .images => if reverse then !(shouldRemoveImage e) else shouldRemoveImage e
  | .videos => if reverse then !(shouldRemoveVideo e) else shouldRemoveVideo e
  | .containsStrings => shouldRemoveStrings cfg e reverse

/-- The keys of `CONDITIONS_MAP` in insertion order, as traversed by
`Array.from(this.CONDITIONS_MAP)` and `[...this.CONDITIONS_MAP]`. -/
def conditionsList : List Cond :=
  [.uncommented, .unliked, .text, .images, .videos, .containsStrings]

/-- JavaScript truthiness of `remove[name]` (source line 146): the structural
flags are booleans, while `remove.containsStrings` is an array, and an array
is truthy even when empty. -/
def removeTruthy (r : RemoveConfig) : Cond → Bool
  | .uncommented => r.uncommented
  | .unliked => r.unliked
  | .text => r.text
  | .images => r.images
  | .videos => r.videos
  | .containsStrings => true

/-- `remove[name] === true || remove[name].length > 0` (source line 139):
for a boolean flag this is the flag itself (booleans have no `length`), for
the `containsStrings` array it is non-emptiness of the array. -/
def removeEnabledRev (r : RemoveConfig) : Cond → Bool
  | .uncommented => r.uncommented
  | .unliked => r.unliked
  | .text => r.text
  | .images => r.images
  | .videos => r.videos
  | .containsStrings => !r.containsStrings.isEmpty

/-- `linkedConditionsFlat = linkedConditions.flat()` (source line 109). -/
def linkedFlat (cfg : Config) : List Cond :=
  cfg.options.linkedConditions.flatMap LinkedItem.flatten

/-- `checkLinkedConditions` (source lines 111-113): `some` of the map
predicates over the group when reversed, `every` otherwise. -/
def checkLinkedConditions (cfg : Config) (e : Entry) (conditionList : List Cond) : Bool :=
  if cfg.options.reverseConditions then
    conditionList.any (fun c => condPred cfg e cfg.options.reverseConditions c)
  else
    conditionList.all (fun c => condPred cfg e cfg.options.reverseConditions c)

/-- The tri-state constants `LINKED_TRUE = 1`, `LINKED_FALSE = 0`,
`LINKED_NONE = -1` (source lines 89-91). -/
inductive LinkedResult where
  | NONE
  | TRUE
  | FALSE
deriving DecidableEq, Repr

/-- The normalization of `linkedConditions` (source lines 120-123): when
every element is a bare name (and none is an array), the whole list becomes
one group; otherwise each element becomes a group via
`Array.isArray(i) ? i : [i]`. In the first branch `[linkedConditions]` is the
one group holding exactly the listed names, i.e. the flattening of the list. -/
def normalizeLinked (lc : List LinkedItem) : List (List Cond) :=
  if lc.all LinkedItem.isName && !(lc.any LinkedItem.isArr) then
    [lc.flatMap LinkedItem.flatten]
  else
    lc.map LinkedItem.toGroup

/-- `shouldRemoveByLinkedConditions` (source lines 115-130). -/
def shouldRemoveByLinkedConditions (cfg : Config) (e : Entry) : LinkedResult :=
  if (linkedFlat cfg).length == 0 then .NONE
  else
    let conditions := normalizeLinked cfg.options.linkedConditions
    let checkResult := conditions.map (fun c => checkLinkedConditions cfg e c)
    if checkResult.contains true
        && (!cfg.options.reverseConditions || !(checkResult.contains false)) then
      .TRUE
    else
      .FALSE

/-- `shouldSkip` (source line 132): the condition occurs in the flattened
linked conditions. -/
def shouldSkip (cfg : Config) (c : Cond) : Bool := (linkedFlat cfg).contains c

/-- `shouldRemoveNode` (source lines 134-149): the complete keep/discard
decision for one entry. -/
def shouldRemoveNode (cfg : Config) (e : Entry) : Bool :=
  let linkedResult := shouldRemoveByLinkedConditions cfg e
  if cfg.options.reverseConditions then
    let checkedConditions :=
      (conditionsList.filter
        (fun c => !(shouldSkip cfg c) && removeEnabledRev cfg.remove c)).map
        (fun c => condPred cfg e cfg.options.reverseConditions c)
    decide (linkedResult ≠ .FALSE) && !(checkedConditions.contains false)
      && (decide (linkedResult = .TRUE) || checkedConditions.contains true)
  else
    decide (linkedResult = .TRUE)
      || conditionsList.any (fun c =>
           !(shouldSkip cfg c) && removeTruthy cfg.remove c
             && condPred cfg e cfg.options.reverseConditions c)

/-- `shouldRemoveNode() ? node.remove() : this.currentLoadCount++`
(source line 151): the pair (entry removed, new value of the counter). -/
def removeEntry (cfg : Config) (count : Nat) (e : Entry) : Bool × Nat :=
  if shouldRemoveNode cfg e then (true, count) else (false, count + 1)

/-- `resetState` (source line 187): the counter returns to zero. -/
def resetState (_count : Nat) : Nat := 0

/-- The specification's notion of an enabled condition (spec Step 6): the
`remove` entry is `true` for a structural condition, a non-empty term
sequence for `containsStrings`. -/
def specEnabled (r : RemoveConfig) : Cond → Bool
  | .uncommented => r.uncommented
  | .unliked => r.unliked
  | .text => r.text
  | .images => r.images
  | .videos => r.videos
  | .containsStrings => !r.containsStrings.isEmpty

/-- The atomic predicate of each catalog entry, ignoring reversal (spec
section 4.1); `containsStrings` delegates to the string matcher, which is
`shouldRemoveStrings` with `reversed = false`. -/
def atomic (cfg : Config) (e : Entry) : Cond → Bool
  | .uncommented => shouldRemoveUncommented e
  | .unliked => shouldRemoveUnliked e
  | .text => shouldRemoveText e
  | .images => shouldRemoveImage e
  | .videos => shouldRemoveVideo e
  | .containsStrings => shouldRemoveStrings cfg e false

/-- The string matcher of the source (lines 154-172, `reversed = false`
branch) as a function of the text, the configured term groups and the case
flag alone. -/
def stringsMatches (nodeText : String) (termGroups : List TermGroup)
    (caseSensitive : Bool) : Bool :=
  if (termGroups.flatMap TermGroup.flat).length == 0 then false
  else termGroups.any (checkStrings caseSensitive nodeText)

/-- The matcher as the specification words it: `false` when the term-group
sequence itself is empty, otherwise the disjunction of the per-group checks.
Kept separate from `stringsMatches` so the two can be compared. -/
def c7SpecMatches (nodeText : String) (termGroups : List TermGroup)
    (caseSensitive : Bool) : Bool :=
  if termGroups.isEmpty then false
  else termGroups.any (checkStrings caseSensitive nodeText)

/-- An entry with every attribute off and empty text. -/
def entryBlank : Entry :=
  { hasComments := false, hasLikes := false, hasImage := false,
    hasVideo := false, isTextOnly := false, text := "" }

/-- A `remove` section with every flag off and no term groups. -/
def removeNone : RemoveConfig :=
  { images := false, videos := false, text := false, uncommented := false,
    unliked := false, containsStrings := [] }

/-- Reversed conditions, empty `containsStrings`, nothing linked. -/
def cfgRevNoStrings : Config :=
  { remove := removeNone,
    options := { caseSensitive := false, reverseConditions := true,
                 linkedConditions := [] } }

/-- Reversed conditions with only `remove.uncommented` enabled. -/
def cfgRevUncommented : Config :=
  { remove := { removeNone with uncommented := true },
    options := { caseSensitive := false, reverseConditions := true,
                 linkedConditions := [] } }

/-- Non-reversed conditions with only `remove.uncommented` enabled. -/
def cfgUncommented : Config :=
  { remove := { removeNone with uncommented := true },
    options := { caseSensitive := false, reverseConditions := false,
                 linkedConditions := [] } }

/-- The configuration of claim C6: `images` and `videos` linked as one group,
their independent flags given by the two parameters, everything else off. -/
def cfgLinkedImagesVideos (b₁ b₂ : Bool) : Config :=
  { remove := { removeNone with images := b₁, videos := b₂ },
    options := { caseSensitive := false, reverseConditions := false,
                 linkedConditions := [.group [.images, .videos]] } }

/-- A linked-conditions list holding an empty group next to a bare name. -/
def cfgEmptyGroupLink (rev : Bool) : Config :=
  { remove := removeNone,
    options := { caseSensitive := false, reverseConditions := rev,
                 linkedConditions := [.group [], .name .images] } }

/-- An entry that has comments and nothing else. -/
def entryCommented : Entry := { entryBlank with hasComments := true }

/-! ### Helper lemmas -/

/-- Every condition name occurs in the map's key list. -/
theorem mem_conditionsList (c : Cond) : c ∈ conditionsList := by
  cases c <;> simp [conditionsList]

/-- The specification's enabledness agrees with the source's
`remove[name] === true || remove[name].length > 0` filter. -/
theorem specEnabled_eq_removeEnabledRev (r : RemoveConfig) (c : Cond) :
    specEnabled r c = removeEnabledRev r c := by
  cases c <;> rfl

/-- `contains` on the filtered, mapped key list is an existential over all
condition names. -/
theorem contains_filtered_map (p f : Cond → Bool) (b : Bool) :
    ((conditionsList.filter p).map f).contains b = true ↔
      ∃ c : Cond, p c = true ∧ f c = b := by
  constructor
  · intro h
    obtain ⟨c, hc, hfc⟩ := List.mem_map.mp (List.elem_iff.mp h)
    exact ⟨c, (List.mem_filter.mp hc).2, hfc⟩
  · rintro ⟨c, hp, hb⟩
    exact List.elem_iff.mpr
      (List.mem_map.mpr ⟨c, List.mem_filter.mpr ⟨mem_conditionsList c, hp⟩, hb⟩)

/-- `any` on the key list is an existential over all condition names. -/
theorem any_conditionsList (p : Cond → Bool) :
    conditionsList.any p = true ↔ ∃ c : Cond, p c = true := by
  simp only [List.any_eq_true]
  exact ⟨fun ⟨c, _, hp⟩ => ⟨c, hp⟩, fun ⟨c, hp⟩ => ⟨c, mem_conditionsList c, hp⟩⟩

/-- A true `shouldRemoveStrings` needs a non-empty `containsStrings` array. -/
theorem containsStrings_ne_nil_of_shouldRemoveStrings {cfg : Config}
    {e : Entry} {rv : Bool} (h : shouldRemoveStrings cfg e rv = true) :
    cfg.remove.containsStrings.isEmpty = false := by
  cases hl : cfg.remove.containsStrings with
  | nil => simp [shouldRemoveStrings, hl] at h
  | cons a l => rfl

/-- `shouldRemoveStrings` with `reversed = false` is the string matcher. -/
theorem shouldRemoveStrings_false_eq (cfg : Config) (e : Entry) :
    shouldRemoveStrings cfg e false =
      stringsMatches e.text cfg.remove.containsStrings cfg.options.caseSensitive := by
  simp [shouldRemoveStrings, stringsMatches]

/-- Boolean `contains` agrees with list membership. -/
theorem contains_eq_true_iff_mem {α} [BEq α] [LawfulBEq α] (l : List α) (a : α) :
    l.contains a = true ↔ a ∈ l := List.elem_iff

/-- Failing Boolean `contains` agrees with non-membership. -/
theorem contains_eq_false_iff_not_mem {α} [BEq α] [LawfulBEq α] (l : List α) (a : α) :
    l.contains a = false ↔ a ∉ l := by
  rw [Bool.eq_false_iff, ne_eq, contains_eq_true_iff_mem]

/-- The `length === 0` test fails on a non-empty list. -/
theorem beqLenZero_of_ne {α} {l : List α} (h : l ≠ []) : (l.length == 0) = false := by
  cases l with
  | nil => exact absurd rfl h
  | cons a t => rfl

/-- Absence of `false` among the filtered, mapped key list is a universal
over all condition names. -/
theorem contains_filtered_map_false (p f : Cond → Bool) :
    (((conditionsList.filter p).map f).contains false = false) ↔
      ∀ c : Cond, p c = true → f c = true := by
  rw [Bool.eq_false_iff, ne_eq, contains_filtered_map]
  push_neg
  simp only [Bool.ne_false_iff]

/-- The reversed-mode filter of `shouldRemoveNode` selects exactly the
enabled conditions outside the flattened linked conditions. -/
theorem revFilter_iff (cfg : Config) (c : Cond) :
    ((!shouldSkip cfg c && removeEnabledRev cfg.remove c) = true) ↔
      (specEnabled cfg.remove c = true ∧ c ∉ linkedFlat cfg) := by
  rw [Bool.and_eq_true, Bool.not_eq_true', specEnabled_eq_removeEnabledRev]
  unfold shouldSkip
  rw [contains_eq_false_iff_not_mem]
  exact and_comm

/-- In non-reversed mode, filtering by JavaScript truthiness of the `remove`
entry selects the same satisfied conditions as the specification's
enabledness: a truthy but disabled `containsStrings` never satisfies its
predicate, because the predicate is `false` on an empty term sequence. -/
theorem truthyExists_iff (cfg : Config) (e : Entry) :
    (∃ c : Cond, (shouldSkip cfg c = false ∧ removeTruthy cfg.remove c = true)
        ∧ condPred cfg e false c = true) ↔
      (∃ c : Cond, specEnabled cfg.remove c = true ∧ c ∉ linkedFlat cfg
        ∧ condPred cfg e false c = true) := by
  constructor
  · rintro ⟨c, ⟨hs, ht⟩, hp⟩
    refine ⟨c, ?_, (contains_eq_false_iff_not_mem _ _).mp hs, hp⟩
    cases c with
    | containsStrings =>
      have hp' : shouldRemoveStrings cfg e false = true := hp
      have hne := containsStrings_ne_nil_of_shouldRemoveStrings hp'
      simp [specEnabled, hne]
    | uncommented => exact ht
    | unliked => exact ht
    | text => exact ht
    | images => exact ht
    | videos => exact ht
  · rintro ⟨c, he, hm, hp⟩
    refine ⟨c, ⟨(contains_eq_false_iff_not_mem _ _).mpr hm, ?_⟩, hp⟩
    cases c with
    | containsStrings => rfl
    | uncommented => exact he
    | unliked => exact he
    | text => exact he
    | images => exact he
    | videos => exact he

/-- Flattening the items of a list of bare names recovers the names. -/
theorem flatMap_flatten_map_name (cs : List Cond) :
    (cs.map LinkedItem.name).flatMap LinkedItem.flatten = cs := by
  induction cs with
  | nil => rfl
  | cons a l ih => simp [LinkedItem.flatten, ih]

/-- With no string configured anywhere, `shouldRemoveStrings` is `false`
for either value of `reversed`. -/
theorem shouldRemoveStrings_of_flat_nil {cfg : Config} {e : Entry} (rv : Bool)
    (h : cfg.remove.containsStrings.flatMap TermGroup.flat = []) :
    shouldRemoveStrings cfg e rv = false := by
  have hb : ((cfg.remove.containsStrings.flatMap TermGroup.flat).length == 0) = true := by
    rw [h]; rfl
  simp only [shouldRemoveStrings, hb]
  simp

/-- With at least one string configured, the reversed string check is the
negation of the non-reversed one. -/
theorem shouldRemoveStrings_rev_flip {cfg : Config} {e : Entry}
    (h : cfg.remove.containsStrings.flatMap TermGroup.flat ≠ []) :
    shouldRemoveStrings cfg e true = !(shouldRemoveStrings cfg e false) := by
  have hb := beqLenZero_of_ne h
  simp only [shouldRemoveStrings, hb]
  simp

/-- When some condition is linked, `shouldRemoveByLinkedConditions` is the
two-way branch over the per-group check results. -/
theorem linked_notnil_form (cfg : Config) (e : Entry) (h2 : linkedFlat cfg ≠ []) :
    shouldRemoveByLinkedConditions cfg e =
      (if ((normalizeLinked cfg.options.linkedConditions).map
            (fun g => checkLinkedConditions cfg e g)).contains true
          && (!cfg.options.reverseConditions
            || !(((normalizeLinked cfg.options.linkedConditions).map
                  (fun g => checkLinkedConditions cfg e g)).contains false))
        then LinkedResult.TRUE else LinkedResult.FALSE) := by
  have hb := beqLenZero_of_ne h2
  unfold shouldRemoveByLinkedConditions
  rw [if_neg (fun hc => Bool.false_ne_true (hb ▸ hc))]

/-! ### The claims -/

/-- Claim C1: with `reverseConditions = true` the decision is `true`
(discard) exactly when the linked result is not `FALSE`, no enabled
non-linked condition's effective value is `false`, and either the linked
result is `TRUE` or some enabled non-linked condition's effective value is
`true`; enabled means a `true` remove flag or a non-empty term sequence,
non-linked means not occurring anywhere in `linkedConditions`. -/
theorem reversed_decision_iff (cfg : Config) (e : Entry)
    (h : cfg.options.reverseConditions = true) :
    shouldRemoveNode cfg e = true ↔
      (shouldRemoveByLinkedConditions cfg e ≠ .FALSE
        ∧ (∀ c : Cond, specEnabled cfg.remove c = true → c ∉ linkedFlat cfg →
            condPred cfg e true c = true)
        ∧ (shouldRemoveByLinkedConditions cfg e = .TRUE
            ∨ ∃ c : Cond, specEnabled cfg.remove c = true ∧ c ∉ linkedFlat cfg
                ∧ condPred cfg e true c = true)) := by
  simp only [shouldRemoveNode, h, if_true]
  rw [Bool.and_eq_true, Bool.and_eq_true, Bool.or_eq_true, Bool.not_eq_true',
    decide_eq_true_iff, decide_eq_true_iff, contains_filtered_map,
    contains_filtered_map_false]
  simp only [revFilter_iff, and_imp, and_assoc]

/-- Witness for C1: an entry with comments, under reversal with only
`remove.uncommented` enabled, is discarded. -/
theorem reversed_decision_witness :
    shouldRemoveNode cfgRevUncommented entryCommented = true :=
  (reversed_decision_iff cfgRevUncommented entryCommented rfl).mpr (by decide)

/-- Claim C2: with `reverseConditions = false` the decision is `true`
exactly when the linked result is `TRUE` or some enabled condition outside
`linkedConditions` has a true effective value, and in this mode the
effective predicate coincides with the atomic predicate. -/
theorem nonreversed_decision_iff (cfg : Config) (e : Entry)
    (h : cfg.options.reverseConditions = false) :
    (shouldRemoveNode cfg e = true ↔
      (shouldRemoveByLinkedConditions cfg e = .TRUE
        ∨ ∃ c : Cond, specEnabled cfg.remove c = true ∧ c ∉ linkedFlat cfg
            ∧ condPred cfg e false c = true))
    ∧ (∀ c : Cond, condPred cfg e false c = atomic cfg e c) := by
  refine ⟨?_, fun c => by cases c <;> rfl⟩
  simp only [shouldRemoveNode, h, Bool.false_eq_true, if_false]
  rw [Bool.or_eq_true, decide_eq_true_iff, any_conditionsList]
  simp only [Bool.and_eq_true, Bool.not_eq_true']
  exact or_congr_right (truthyExists_iff cfg e)

/-- Witness for C2: an uncommented entry is discarded when only
`remove.uncommented` is enabled and nothing is reversed or linked. -/
theorem nonreversed_decision_witness :
    shouldRemoveNode cfgUncommented entryBlank = true :=
  ((nonreversed_decision_iff cfgUncommented entryBlank rfl).1).mpr (by decide)

/-- Claim C3: the aggregated linked result is `NONE` exactly when the
flattened `linkedConditions` is empty; otherwise it is `TRUE` exactly when
the per-group check results contain a `true` and, under reversal, contain
no `false`; in all remaining cases it is `FALSE`. -/
theorem linked_result_tristate (cfg : Config) (e : Entry) :
    (shouldRemoveByLinkedConditions cfg e = .NONE ↔ linkedFlat cfg = [])
    ∧ (shouldRemoveByLinkedConditions cfg e = .TRUE ↔
        (linkedFlat cfg ≠ []
          ∧ (∃ b ∈ (normalizeLinked cfg.options.linkedConditions).map
                (fun g => checkLinkedConditions cfg e g), b = true)
          ∧ (cfg.options.reverseConditions = true →
              ∀ b ∈ (normalizeLinked cfg.options.linkedConditions).map
                  (fun g => checkLinkedConditions cfg e g), b = true))) := by
  by_cases hfl : linkedFlat cfg = []
  · have hb : ((linkedFlat cfg).length == 0) = true := by rw [hfl]; rfl
    have hN : shouldRemoveByLinkedConditions cfg e = .NONE := by
      unfold shouldRemoveByLinkedConditions
      rw [if_pos hb]
    rw [hN]
    constructor
    · simp [hfl]
    · simp [hfl]
  · rw [linked_notnil_form cfg e hfl]
    refine ⟨⟨fun hEq => ?_, fun h2 => absurd h2 hfl⟩, ⟨fun hEq => ?_, ?_⟩⟩
    · exfalso
      by_cases hc : (((normalizeLinked cfg.options.linkedConditions).map
            (fun g => checkLinkedConditions cfg e g)).contains true
          && (!cfg.options.reverseConditions
            || !(((normalizeLinked cfg.options.linkedConditions).map
                  (fun g => checkLinkedConditions cfg e g)).contains false))) = true
      · rw [if_pos hc] at hEq; exact LinkedResult.noConfusion hEq
      · rw [if_neg hc] at hEq; exact LinkedResult.noConfusion hEq
    · have hc : (((normalizeLinked cfg.options.linkedConditions).map
            (fun g => checkLinkedConditions cfg e g)).contains true
          && (!cfg.options.reverseConditions
            || !(((normalizeLinked cfg.options.linkedConditions).map
                  (fun g => checkLinkedConditions cfg e g)).contains false))) = true := by
        by_contra hc
        rw [if_neg hc] at hEq
        exact LinkedResult.noConfusion hEq
      rw [Bool.and_eq_true] at hc
      obtain ⟨hct, hor⟩ := hc
      refine ⟨hfl, ⟨true, (contains_eq_true_iff_mem _ true).mp hct, rfl⟩, ?_⟩
      intro hrev b hbR
      rw [hrev] at hor
      have hcf : ((normalizeLinked cfg.options.linkedConditions).map
          (fun g => checkLinkedConditions cfg e g)).contains false = false := by
        cases hcf : ((normalizeLinked cfg.options.linkedConditions).map
            (fun g => checkLinkedConditions cfg e g)).contains false with
        | false => rfl
        | true => rw [hcf] at hor; exact absurd hor (by decide)
      cases b with
      | true => rfl
      | false => exact absurd hbR ((contains_eq_false_iff_not_mem _ false).mp hcf)
    · rintro ⟨-, ⟨b, hbR, hbT⟩, hall⟩
      subst hbT
      have hct : ((normalizeLinked cfg.options.linkedConditions).map
          (fun g => checkLinkedConditions cfg e g)).contains true = true :=
        (contains_eq_true_iff_mem _ true).mpr hbR
      have hor : (!cfg.options.reverseConditions
          || !(((normalizeLinked cfg.options.linkedConditions).map
                (fun g => checkLinkedConditions cfg e g)).contains false)) = true := by
        cases hrev : cfg.options.reverseConditions with
        | false => rfl
        | true =>
          have hnf : false ∉ ((normalizeLinked cfg.options.linkedConditions).map
              (fun g => checkLinkedConditions cfg e g)) :=
            fun hbF => Bool.false_ne_true (hall hrev false hbF)
          rw [(contains_eq_false_iff_not_mem _ false).mpr hnf]
          rfl
      rw [if_pos (by rw [Bool.and_eq_true]; exact ⟨hct, hor⟩)]

/-- Claim C4: the per-group check is the conjunction of the effective
predicates over the group's names when `reverseConditions` is false, and
their disjunction when it is true. -/
theorem linked_group_check (cfg : Config) (e : Entry) (g : List Cond) :
    checkLinkedConditions cfg e g = true ↔
      (if cfg.options.reverseConditions = true
       then ∃ c ∈ g, condPred cfg e cfg.options.reverseConditions c = true
       else ∀ c ∈ g, condPred cfg e cfg.options.reverseConditions c = true) := by
  cases h : cfg.options.reverseConditions <;>
    simp [checkLinkedConditions, h, List.any_eq_true, List.all_eq_true]

/-- Counterexample to claim C5 as stated: with `reverseConditions = true`
and an empty `containsStrings` term sequence the evaluator's effective
predicate for `containsStrings` is `false`, not the negation of the (false)
atomic predicate. -/
theorem reversed_effective_counterexample :
    condPred cfgRevNoStrings entryBlank true Cond.containsStrings ≠
      !(atomic cfgRevNoStrings entryBlank Cond.containsStrings) := by decide

/-- Claim C5 as amended: with `reverseConditions = true` the effective
predicate is the negation of the atomic one for every condition, except
`containsStrings` when its configured term sequence flattens to no strings
at all — there both the atomic predicate and the effective value are
`false`. -/
theorem reversed_effective_eq (cfg : Config) (e : Entry) (c : Cond) :
    condPred cfg e true c =
      if c = Cond.containsStrings ∧ cfg.remove.containsStrings.flatMap TermGroup.flat = []
      then false
      else !(atomic cfg e c) := by
  cases c
  case containsStrings =>
    by_cases hf : cfg.remove.containsStrings.flatMap TermGroup.flat = []
    · rw [if_pos ⟨rfl, hf⟩]
      exact shouldRemoveStrings_of_flat_nil true hf
    · rw [if_neg (fun hand => hf hand.2)]
      show shouldRemoveStrings cfg e true = !(atomic cfg e Cond.containsStrings)
      rw [shouldRemoveStrings_rev_flip hf]
      rfl
  all_goals simp [condPred, atomic]

/-- Claim C6: with `linkedConditions = [["images","videos"]]` and any
values of the independent `images`/`videos` flags, the decision is exactly
"the entry has both an image and a video": linked membership alone makes
the atomic predicates consulted, and the two names are excluded from
independent evaluation. -/
theorem linked_overrides_enablement (b₁ b₂ : Bool) (e : Entry) :
    shouldRemoveNode (cfgLinkedImagesVideos b₁ b₂) e = (e.hasImage && e.hasVideo) := by
  rcases e with ⟨hc, hl, hi, hv, ht, s⟩
  cases b₁ <;> cases b₂ <;> cases hc <;> cases hl <;> cases hi <;> cases hv <;>
    cases ht <;> rfl

/-- Counterexample to claim C7 as stated: on the non-empty term-group
sequence `[[]]` (one empty AND-group) the matcher returns `false`, while
the claim's description — disjunction over groups, an empty group matching
vacuously — yields `true`. -/
theorem matcher_empty_group_counterexample :
    stringsMatches "abc" [TermGroup.group []] false = false
    ∧ c7SpecMatches "abc" [TermGroup.group []] false = true := by
  constructor <;> rfl

/-- Claim C7 as amended: the matcher returns `false` when the flattened
term-group sequence holds no strings (in particular when the sequence is
empty or consists only of empty groups); otherwise it is the disjunction
over groups, where a single-string group matches exactly when the text
contains the string and a multi-string group exactly when the text contains
every string of the group. -/
theorem matcher_characterization (nodeText : String) (termGroups : List TermGroup)
    (caseSensitive : Bool) (s : String) (ss : List String) :
    (stringsMatches nodeText termGroups caseSensitive = true ↔
      (termGroups.flatMap TermGroup.flat ≠ [] ∧
        ∃ g ∈ termGroups, checkStrings caseSensitive nodeText g = true))
    ∧ checkStrings caseSensitive nodeText (TermGroup.single s) =
        containsString caseSensitive nodeText s
    ∧ (checkStrings caseSensitive nodeText (TermGroup.group ss) = true ↔
        ∀ x ∈ ss, containsString caseSensitive nodeText x = true) := by
  refine ⟨?_, rfl, by simp [checkStrings, List.all_eq_true]⟩
  by_cases hf : termGroups.flatMap TermGroup.flat = []
  · have hb : ((termGroups.flatMap TermGroup.flat).length == 0) = true := by rw [hf]; rfl
    simp only [stringsMatches, hb, if_true]
    simp [hf]
  · have hb := beqLenZero_of_ne hf
    simp only [stringsMatches, hb, Bool.false_eq_true, if_false]
    simp [hf, List.any_eq_true]

/-- Claim C8: a `linkedConditions` list of bare names normalizes to the
single group of those names; a list containing at least one subsequence
normalizes element-wise (a subsequence stays a group, a bare name becomes a
singleton group); and in either shape the groups flatten back to
`linkedConditions.flat()`, so the same names feed the skip rule. -/
theorem normalize_linked_shapes (cs : List Cond) (lc : List LinkedItem) :
    normalizeLinked (cs.map LinkedItem.name) = [cs]
    ∧ (lc.any LinkedItem.isArr = true → normalizeLinked lc = lc.map LinkedItem.toGroup)
    ∧ (normalizeLinked lc).flatten = lc.flatMap LinkedItem.flatten := by
  refine ⟨?_, ?_, ?_⟩
  · have hall : (cs.map LinkedItem.name).all LinkedItem.isName = true := by
      simp [List.all_eq_true, LinkedItem.isName]
    have hany : (cs.map LinkedItem.name).any LinkedItem.isArr = false := by
      simp [List.any_eq_true, LinkedItem.isArr]
    simp [normalizeLinked, hall, hany, flatMap_flatten_map_name]
  · intro h
    simp [normalizeLinked, h]
  · have htg : LinkedItem.toGroup = LinkedItem.flatten := by
      funext i; cases i <;> rfl
    by_cases hcond : (lc.all LinkedItem.isName && !(lc.any LinkedItem.isArr)) = true
    · unfold normalizeLinked
      rw [if_pos hcond]
      simp
    · unfold normalizeLinked
      rw [if_neg hcond, htg, ← List.flatMap_def]

/-- Claim C9: processing one entry reports the decision of
`shouldRemoveNode`; a removed entry leaves the accepted counter unchanged,
a kept entry increments it by exactly one, and the cycle reset puts it back
to zero. -/
theorem accepted_counter_frame (cfg : Config) (count : Nat) (e : Entry) :
    (removeEntry cfg count e).1 = shouldRemoveNode cfg e
    ∧ (removeEntry cfg count e).2 = (if shouldRemoveNode cfg e then count else count + 1)
    ∧ resetState count = 0 := by
  cases h : shouldRemoveNode cfg e <;> simp [removeEntry, h, resetState]

/-- Claim C10: when `linkedConditions` holds an empty group and at least
one name elsewhere, the empty group's check is vacuously true without
reversal — making the linked result `TRUE` and every entry discarded — and
vacuously false under reversal — making the linked result `FALSE` and
every entry kept. -/
theorem empty_linked_group_decision (cfg : Config) (e : Entry)
    (h1 : LinkedItem.group [] ∈ cfg.options.linkedConditions)
    (h2 : linkedFlat cfg ≠ []) :
    (cfg.options.reverseConditions = false →
      checkLinkedConditions cfg e [] = true
      ∧ shouldRemoveByLinkedConditions cfg e = .TRUE
      ∧ shouldRemoveNode cfg e = true)
    ∧ (cfg.options.reverseConditions = true →
      checkLinkedConditions cfg e [] = false
      ∧ shouldRemoveByLinkedConditions cfg e = .FALSE
      ∧ shouldRemoveNode cfg e = false) := by
  have harr : cfg.options.linkedConditions.any LinkedItem.isArr = true :=
    List.any_eq_true.mpr ⟨_, h1, rfl⟩
  have hmemG : ([] : List Cond) ∈ normalizeLinked cfg.options.linkedConditions := by
    unfold normalizeLinked
    rw [if_neg (fun hc => by rw [harr] at hc; simp at hc)]
    exact List.mem_map.mpr ⟨.group [], h1, rfl⟩
  constructor
  · intro hrev
    have hchk : checkLinkedConditions cfg e [] = true := by
      simp [checkLinkedConditions, hrev]
    have hct : ((normalizeLinked cfg.options.linkedConditions).map
        (fun g => checkLinkedConditions cfg e g)).contains true = true :=
      (contains_eq_true_iff_mem _ true).mpr (List.mem_map.mpr ⟨[], hmemG, hchk⟩)
    have hT : shouldRemoveByLinkedConditions cfg e = .TRUE := by
      rw [linked_notnil_form cfg e h2]
      rw [if_pos (by rw [Bool.and_eq_true]; exact ⟨hct, by rw [hrev]; rfl⟩)]
    refine ⟨hchk, hT, ?_⟩
    simp [shouldRemoveNode, hrev, hT]
  · intro hrev
    have hchk : checkLinkedConditions cfg e [] = false := by
      simp [checkLinkedConditions, hrev]
    have hcf : ((normalizeLinked cfg.options.linkedConditions).map
        (fun g => checkLinkedConditions cfg e g)).contains false = true :=
      (contains_eq_true_iff_mem _ false).mpr (List.mem_map.mpr ⟨[], hmemG, hchk⟩)
    have hneg : ¬((((normalizeLinked cfg.options.linkedConditions).map
          (fun g => checkLinkedConditions cfg e g)).contains true
        && (!cfg.options.reverseConditions
          || !(((normalizeLinked cfg.options.linkedConditions).map
                (fun g => checkLinkedConditions cfg e g)).contains false))) = true) := by
      intro hc
      rw [Bool.and_eq_true] at hc
      obtain ⟨-, hor⟩ := hc
      rw [hrev, hcf] at hor
      exact absurd hor (by decide)
    have hF : shouldRemoveByLinkedConditions cfg e = .FALSE := by
      rw [linked_notnil_form cfg e h2]
      rw [if_neg hneg]
    refine ⟨hchk, hF, ?_⟩
    simp [shouldRemoveNode, hrev, hF]

/-- Witness for C10: with `linkedConditions = [[], ["images"]]` a blank
entry is discarded without reversal and kept under reversal. -/
theorem empty_linked_group_witness :
    shouldRemoveNode (cfgEmptyGroupLink false) entryBlank = true
    ∧ shouldRemoveNode (cfgEmptyGroupLink true) entryBlank = false :=
  ⟨((empty_linked_group_decision (cfgEmptyGroupLink false) entryBlank
      (by decide) (by decide)).1 rfl).2.2,
   ((empty_linked_group_decision (cfgEmptyGroupLink true) entryBlank
      (by decide) (by decide)).2 rfl).2.2⟩

end AFF
